import Mathlib

/-!
# Verification of the document-normalization core of the saint-locator app

This file shallowly embeds the data-normalization and list-filtering logic of
the repository (the defensive timestamp / coordinate / reference parsers, the
record assemblers, and the map screen's filter & sort pipeline) and proves or
refutes the specification's claims about them.

Modelling conventions:
* Loosely-typed JavaScript values are the inductive `JsVal`.  Host-defined
  behaviour that cannot be written in Lean is attached to the value itself:
  a function value (`JsVal.vfun`) carries the result of calling it
  (`Except Unit (Option Int)`: an exception, a valid `Date` with its epoch
  milliseconds, or anything else), and a `Date` value carries its internal
  epoch value (`none` = Invalid Date).
* JavaScript numbers are `JsDec`: a decimal representation (sign, integer
  part, fractional digits) together with its exact rational value.  This
  models exactly the numbers whose `String(v)` rendering is plain decimal,
  which is the only aspect of stringification the code relies on.  `NaN` and
  the infinities are outside the model (no claim concerns them).
* JavaScript strings are Lean `String`s; the string operations used by the
  code (`split`, `trim`, `toLowerCase`, `includes`, `startsWith`) are
  re-implemented on `List Char` so that they can be reasoned about directly.
* `Date.parse` (the `new Date(string)` branch) is host-defined except on
  ISO 8601 input; it is modelled by `dateParse`, a strict ISO parser.
-/

/-- A JavaScript number as it prints: sign, integer part, fractional digits.
`String(v)` for such a number is `-? intPart (. fracDigits)?`. -/
structure JsDec where
  neg : Bool
  ip : Nat
  fp : List (Fin 10)
  deriving DecidableEq

/-- Fuel-driven decimal digit count of a natural number (the fuel `n + 1`
always suffices, keeping the recursion structural so that it reduces in the
kernel). `numDigitsGo` counts digits of `n`; `String(n).length = numDigits n`
for a natural number. -/
def numDigitsGo : Nat → Nat → Nat
  | 0, _ => 0
  | f + 1, n => if n < 10 then 1 else numDigitsGo f (n / 10) + 1

def numDigits (n : Nat) : Nat := numDigitsGo (n + 1) n

/-- Length of `String(v)` for the number `v`: an optional minus sign, the
integer digits, and an optional point plus fractional digits. -/
def JsDec.strLen (d : JsDec) : Nat :=
  (if d.neg then 1 else 0) + numDigits d.ip + (if d.fp = [] then 0 else 1 + d.fp.length)

/-- Number of decimal digits of `v` (sign and decimal point not counted). -/
def JsDec.digitCount (d : JsDec) : Nat := numDigits d.ip + d.fp.length

/-- Value of the fractional digit list: `[d₁, d₂, …] ↦ 0.d₁d₂…`. -/
def fracVal : List (Fin 10) → ℚ
  | [] => 0
  | d :: ds => ((d : ℚ) + fracVal ds) / 10

/-- Exact rational value of the decimal. -/
def JsDec.val (d : JsDec) : ℚ :=
  (if d.neg then -1 else 1) * ((d.ip : ℚ) + fracVal d.fp)

/-- The decimal representation of an integer (as `String(v)` prints it). -/
def mkIntDec (v : Int) : JsDec := ⟨decide (v < 0), v.natAbs, []⟩

/-- Loosely-typed JavaScript values as they arrive from the document store.
`vnull` stands for both `null` and `undefined` (every operation the modelled
code performs treats them identically).  `vfun` is a function value carrying
the result of invoking it with no arguments: `.error ()` if the call throws,
`.ok (some ms)` if it returns a valid `Date` with epoch value `ms`, and
`.ok none` if it returns an invalid `Date` or a non-`Date`. -/
inductive JsVal where
  | vnull : JsVal
  | vbool : Bool → JsVal
  | vnum : JsDec → JsVal
  | vstr : String → JsVal
  | vdate : Option Int → JsVal
  | vfun : Except Unit (Option Int) → JsVal
  | vobj : List (String × JsVal) → JsVal

/-- JavaScript truthiness of a modelled value. -/
def truthy : JsVal → Bool
  | .vnull => false
  | .vbool b => b
  | .vnum d => decide (d.val ≠ 0)
  | .vstr s => decide (s ≠ "")
  | .vdate _ => true
  | .vfun _ => true
  | .vobj _ => true

/-- `a || b`. -/
def jsOr (a b : JsVal) : JsVal := if truthy a then a else b

/-- Whether the value is `null`/`undefined`. -/
def isNull : JsVal → Bool
  | .vnull => true
  | _ => false

/-- `a ?? b` (nullish coalescing). -/
def jsCoalesce (a b : JsVal) : JsVal := if isNull a then b else a

/-- A raw Firestore document: fields in order. -/
def RawDoc := List (String × JsVal)

/-- Property access `doc[key]`: the first binding, `undefined` when absent. -/
def lookupRaw : List (String × JsVal) → String → JsVal
  | [], _ => .vnull
  | (k, v) :: rest, key => if k = key then v else lookupRaw rest key

/-! ## String operations used by the JavaScript code, on `List Char` -/

/-- `s.split(sep)` for a one-character separator (JS semantics: a trailing
separator yields a trailing empty segment; `""` yields `[""]`). -/
def splitChar (sep : Char) : List Char → List (List Char)
  | [] => [[]]
  | c :: cs =>
    let r := splitChar sep cs
    if c = sep then [] :: r
    else
      match r with
      | [] => [[c]]
      | h :: t => (c :: h) :: t

/-- `s.trim()`: strip whitespace from both ends. -/
def jsTrim (l : List Char) : List Char :=
  ((l.dropWhile Char.isWhitespace).reverse.dropWhile Char.isWhitespace).reverse

/-- `s.toLowerCase()` (ASCII, which is all the searched data uses). -/
def jsLower (l : List Char) : List Char := l.map Char.toLower

/-- Is `q` a prefix of `s`? -/
def prefixOfB : List Char → List Char → Bool
  | [], _ => true
  | _ :: _, [] => false
  | a :: as, b :: bs => a = b && prefixOfB as bs

/-- `s.includes(q)`: contiguous substring containment. -/
def containsSeq (q : List Char) : List Char → Bool
  | [] => prefixOfB q []
  | c :: rest => prefixOfB q (c :: rest) || containsSeq q rest

/-! ## Date machinery: `Math.round`, `new Date(ms)` and ISO `Date.parse` -/

/-- `Math.round x = ⌊x + 1/2⌋` (halves round toward +∞). -/
def jsRound (x : ℚ) : Int := ⌊x + 1 / 2⌋

/-- `ToIntegerOrInfinity` on a finite value: truncation toward zero. -/
def ratTrunc (q : ℚ) : Int := if 0 ≤ q then ⌊q⌋ else ⌈q⌉

/-- `new Date(ms).getTime()` for a finite `ms`: `NaN` (modelled `none`) when
the time value exceeds the ECMAScript range of ±8.64e15 ms, otherwise the
truncated integer value. -/
def dateClip (ms : ℚ) : Option Int :=
  if |ms| ≤ (8640000000000000 : ℚ) then some (ratTrunc ms) else none

def digitVal? (c : Char) : Option Nat :=
  if '0' ≤ c ∧ c ≤ '9' then some (c.toNat - '0'.toNat) else none

/-- Read an exact run of digits as a number (`none` if any is not a digit). -/
def readDigits : List Char → Option Nat → Option Nat
  | [], acc => acc
  | c :: cs, acc =>
    match acc, digitVal? c with
    | some a, some d => readDigits cs (some (a * 10 + d))
    | _, _ => none

/-- Days between 1970-01-01 and the civil date `y-m-d` (proleptic Gregorian,
Howard Hinnant's `days_from_civil` algorithm). -/
def daysFromCivil (y : Int) (m d : Nat) : Int :=
  let y' : Int := if m ≤ 2 then y - 1 else y
  let era : Int := y'.fdiv 400
  let yoe : Int := y' - era * 400
  let mp : Int := if m > 2 then (m : Int) - 3 else (m : Int) + 9
  let doy : Int := (153 * mp + 2).fdiv 5 + (d : Int) - 1
  let doe : Int := yoe * 365 + yoe.fdiv 4 - yoe.fdiv 100 + doy
  era * 146097 + doe - 719468

def isLeap (y : Int) : Bool :=
  (y % 4 = 0 && y % 100 ≠ 0) || y % 400 = 0

def daysInMonth (y : Int) (m : Nat) : Nat :=
  if m = 2 then (if isLeap y then 29 else 28)
  else if m = 4 ∨ m = 6 ∨ m = 9 ∨ m = 11 then 30 else 31

/-- Epoch milliseconds of a validated civil date-time. -/
def civilMs (y : Int) (mo d h mi s ms : Nat) : Option Int :=
  if 1 ≤ mo ∧ mo ≤ 12 ∧ 1 ≤ d ∧ d ≤ daysInMonth y mo ∧ h ≤ 23 ∧ mi ≤ 59 ∧ s ≤ 59 then
    some (daysFromCivil y mo d * 86400000 +
      (h : Int) * 3600000 + (mi : Int) * 60000 + (s : Int) * 1000 + (ms : Int))
  else none

/-- The tail of an ISO string after `YYYY-MM-DD`: empty, or
`Thh:mm:ss`, `Thh:mm:ss.cde`, each optionally followed by `Z`. -/
def parseISOTime : List Char → Option (Nat × Nat × Nat × Nat)
  | [] => some (0, 0, 0, 0)
  | 'T' :: h1 :: h2 :: ':' :: m1 :: m2 :: ':' :: s1 :: s2 :: rest =>
    match readDigits [h1, h2] (some 0), readDigits [m1, m2] (some 0),
        readDigits [s1, s2] (some 0) with
    | some h, some mi, some s =>
      match rest with
      | [] => some (h, mi, s, 0)
      | ['Z'] => some (h, mi, s, 0)
      | '.' :: c :: d :: e :: rest2 =>
        match readDigits [c, d, e] (some 0), rest2 with
        | some f, [] => some (h, mi, s, f)
        | some f, ['Z'] => some (h, mi, s, f)
        | _, _ => none
      | _ => none
    | _, _, _ => none
  | _ => none

/-- `Date.parse` on the ISO 8601 formats (`YYYY-MM-DD`, optionally
`Thh:mm:ss(.mmm)?` and `Z`), which is the format the ECMAScript standard
requires; everything else is modelled as unparseable. -/
def dateParse (s : String) : Option Int :=
  match s.toList with
  | y1 :: y2 :: y3 :: y4 :: '-' :: m1 :: m2 :: '-' :: d1 :: d2 :: rest =>
    match readDigits [y1, y2, y3, y4] (some 0), readDigits [m1, m2] (some 0),
        readDigits [d1, d2] (some 0), parseISOTime rest with
    | some y, some mo, some d, some (h, mi, sec, f) => civilMs (y : Int) mo d h mi sec f
    | _, _, _, _ => none
  | _ => none

/-! ## The defensive timestamp normalizer

`toDateSafe` (the detail screen's shared helper): tries, in order, an object
with a callable `toDate`, an object with numeric `seconds` (plus optional
numeric `nanoseconds`), a bare number keyed on `String(value).length === 10`,
a `Date` instance, and finally generic string parsing.  We return the epoch
milliseconds of the produced `Date` (`none` where the code returns `null`). -/
def toDateSafe : JsVal → Option Int
  | .vnull => none
  | .vobj fields =>
    match lookupRaw fields "toDate" with
    | .vfun res =>
      -- try { const d = value.toDate(); return valid ? d : null } catch { return null }
      match res with
      | .error _ => none
      | .ok (some ms) => some ms
      | .ok none => none
    | _ =>
      match lookupRaw fields "seconds" with
      | .vnum sd =>
        let ns : ℚ :=
          match lookupRaw fields "nanoseconds" with
          | .vnum nd => nd.val
          | _ => 0
        dateClip (sd.val * 1000 + (jsRound (ns / 1000000) : ℚ))
      | _ => none
  | .vnum d =>
    dateClip (if d.strLen = 10 then d.val * 1000 else d.val)
  | .vdate od => od
  | .vstr s => dateParse s
  | .vbool _ => none
  | .vfun _ => none

/-! ## The flexible coordinate normalizer (`parseCoordinatesFlexible`, map screen)

The object branch accepts the first non-nullish alias among
`latitude/lat/_latitude/_lat` (resp. `longitude/lng/_longitude/_long`) and
requires both to be numbers; no range validation is performed.  The string
branch strips degree/hemisphere markers and parentheses, then tries a comma
split, a whitespace split, and finally the first two numeric substrings
anywhere in the string (the regex `-?\d+(\.\d+)?`). -/

structure Coord where
  latitude : ℚ
  longitude : ℚ
  deriving DecidableEq

def isDigitC (c : Char) : Bool := decide ('0' ≤ c) && decide (c ≤ '9')

def dval (c : Char) : Nat := c.toNat - '0'.toNat

/-- Maximal leading digit run: the digits and the rest. -/
def takeDigits : List Char → List Char × List Char
  | [] => ([], [])
  | c :: cs =>
    if isDigitC c then
      let (d, r) := takeDigits cs
      (c :: d, r)
    else ([], c :: cs)

def natOfDigits (l : List Char) : Nat := l.foldl (fun a c => a * 10 + dval c) 0

def fracOfDigits : List Char → ℚ
  | [] => 0
  | c :: cs => ((dval c : ℚ) + fracOfDigits cs) / 10

/-- Try to match the regex `-?\d+(\.\d+)?` anchored at the head of the list:
the exact value of the match (`parseFloat` of the matched text) and the
remaining characters after it. -/
def matchNum (l : List Char) : Option (ℚ × List Char) :=
  match l with
  | [] => none
  | c :: cs =>
    let core : List Char → Option (ℚ × List Char) := fun l2 =>
      match takeDigits l2 with
      | ([], _) => none
      | (ds, rest) =>
        match rest with
        | '.' :: r2 =>
          match takeDigits r2 with
          | ([], _) => some ((natOfDigits ds : ℚ), rest)
          | (fs, r3) => some ((natOfDigits ds : ℚ) + fracOfDigits fs, r3)
        | _ => some ((natOfDigits ds : ℚ), rest)
    if c = '-' then
      match core cs with
      | some (q, r) => some (-q, r)
      | none => none
    else core (c :: cs)

/-- First regex match anywhere in the string (regex left-to-right scan). -/
def scanNum : List Char → Option ℚ
  | [] => none
  | c :: cs =>
    match matchNum (c :: cs) with
    | some (q, _) => some q
    | none => scanNum cs

/-- All matches of the global number regex (`s.match` with the `g` flag), scanning
left to right and continuing after each match.  The fuel (one per character)
always suffices because each step consumes at least one character. -/
def scanAllGo : Nat → List Char → List ℚ
  | 0, _ => []
  | _ + 1, [] => []
  | f + 1, c :: cs =>
    match matchNum (c :: cs) with
    | some (q, rest) => q :: scanAllGo f rest
    | none => scanAllGo f cs

def scanAll (l : List Char) : List ℚ := scanAllGo (l.length + 1) l

/-- Characters removed by `extractNumber`: degree signs, hemisphere letters
(case-insensitive) and parentheses. -/
def strippedChar (c : Char) : Bool :=
  c = '°' || c = 'º' || c = 'N' || c = 'S' || c = 'E' || c = 'W' ||
  c = 'n' || c = 's' || c = 'e' || c = 'w' || c = '(' || c = ')'

/-- `extractNumber`: strip markers, trim, and take the first numeric match
(`none` models the `NaN` outcome). -/
def extractNumber (l : List Char) : Option ℚ :=
  scanNum (jsTrim (l.filter (fun c => !strippedChar c)))

/-- The non-empty whitespace-separated chunks: `s.split(/\s+/).filter(Boolean)`. -/
def splitWs (l : List Char) : List (List Char) :=
  (splitChar ' ' (l.map fun c => if c.isWhitespace then ' ' else c)).filter (· ≠ [])

def tryPair (a b : Option ℚ) : Option Coord :=
  match a, b with
  | some la, some lo => some ⟨la, lo⟩
  | _, _ => none

/-- The string branch of `parseCoordinatesFlexible`. -/
def parseCoordString (l : List Char) : Option Coord :=
  let s := jsTrim l
  let commaStep :=
    match splitChar ',' s with
    | a :: b :: _ => tryPair (extractNumber a) (extractNumber b)
    | _ => none
  let spaceStep :=
    match splitWs s with
    | a :: b :: _ => tryPair (extractNumber a) (extractNumber b)
    | _ => none
  let globalStep :=
    match scanAll s with
    | n1 :: n2 :: _ => some ⟨n1, n2⟩
    | _ => none
  (commaStep.orElse fun _ => spaceStep).orElse fun _ => globalStep

/-- First non-nullish value in the alias chain. -/
def firstNonNull : List JsVal → JsVal
  | [] => .vnull
  | v :: rest => if isNull v then firstNonNull rest else v

/-- `parseCoordinatesFlexible` (map screen, lines 264–322). -/
def parseCoordinatesFlexible : JsVal → Option Coord
  | .vnull => none
  | .vobj fields =>
    let f := lookupRaw fields
    let maybeLat := firstNonNull [f "latitude", f "lat", f "_latitude", f "_lat", f "latitude"]
    let maybeLon := firstNonNull [f "longitude", f "lng", f "_longitude", f "_long", f "longitude"]
    match maybeLat, maybeLon with
    | .vnum a, .vnum b => some ⟨a.val, b.val⟩
    | _, _ => none
  | .vdate _ => none
  | .vstr s => parseCoordString s.toList
  | _ => none

/-! ## The reference normalizer (`extractId`, detail screen helpers) -/

/-- `parts[parts.length - 1] || null` after `p.split('/')`: the final
segment, or `none` when it is empty. -/
def lastSeg (l : List Char) : Option (List Char) :=
  match (splitChar '/' l).getLast? with
  | some last => if last = [] then none else some last
  | none => none

/-- `extractId` (shared helper, also `formatDocRef` on the profile screen):
a falsy non-string yields `null`; an object is tried for a nonempty string
`id`, then a string `path` whose final path segment is taken; a string has a
single leading `/` stripped and its final path segment taken. -/
def extractId : JsVal → Option String
  | .vnull => none
  | .vbool _ => none
  | .vnum _ => none
  | .vdate _ => none
  | .vfun _ => none
  | .vobj fields =>
    let pathCase :=
      match lookupRaw fields "path" with
      | .vstr p => (lastSeg p.toList).map fun l => String.mk l
      | _ => none
    match lookupRaw fields "id" with
    | .vstr s => if s = "" then pathCase else some s
    | _ => pathCase
  | .vstr s =>
    let t := match s.toList with
      | '/' :: rest => rest
      | l => l
    (lastSeg t).map fun l => String.mk l

/-! ## Record assemblers -/

/-- The canonical saint record the home screen assembles (all fields are the
loosely-typed values the code stores; defaults are empty strings). -/
structure SaintRecA where
  id : String
  name : JsVal
  designation : JsVal
  location : JsVal
  guruName : JsVal
  sect : JsVal
  about : JsVal
  amber : JsVal
  groupLeader : JsVal

/-- `fetchSaints` mapping (home screen, lines 87–100): every field is
`data.key || ''`, with `amber` and `groupLeader` trying two source keys. -/
def assembleSaint (docId : String) (data : RawDoc) : SaintRecA :=
  let g := lookupRaw data
  { id := docId
    name := jsOr (g "name") (.vstr "")
    designation := jsOr (g "designation") (.vstr "")
    location := jsOr (g "location") (.vstr "")
    guruName := jsOr (g "guruName") (.vstr "")
    sect := jsOr (g "sect") (.vstr "")
    about := jsOr (g "about") (.vstr "")
    amber := jsOr (jsOr (g "Amber") (g "amber")) (.vstr "")
    groupLeader := jsOr (jsOr (g "Group Leader") (g "groupLeader")) (.vstr "") }

/-- The record with every canonical field at its declared default. -/
def defaultSaint (docId : String) : SaintRecA :=
  { id := docId, name := .vstr "", designation := .vstr "", location := .vstr ""
    guruName := .vstr "", sect := .vstr "", about := .vstr ""
    amber := .vstr "", groupLeader := .vstr "" }

/-- The map screen's coordinate candidate chain (lines 485–492):
`raw.coordinates ?? raw.locationGeo ?? raw.coords ?? raw.location ??
raw.coordinatesText ?? raw.locationText ?? null`. -/
def candidateOf (raw : RawDoc) : JsVal :=
  let g := lookupRaw raw
  jsCoalesce (g "coordinates") (jsCoalesce (g "locationGeo") (jsCoalesce (g "coords")
    (jsCoalesce (g "location") (jsCoalesce (g "coordinatesText")
      (jsCoalesce (g "locationText") .vnull)))))

/-! ## The detail screen's `dateOfDiksha` resolution (saint/[id] lines 154–158)

`raw?.dateOfDiksha?.toDate?.() ?? (raw?.dateOfDiksha && typeof
raw.dateOfDiksha.seconds === 'number' ? new Date(...) : raw?.dateOfDiksha ??
null)`.  The optional call `?.()` skips a nullish `toDate` but RAISES a
`TypeError` when `toDate` is non-nullish and not callable; there is no local
`try`/`catch`, so the exception escapes to `fetchSaintDetails`' outer catch
(which nulls the whole record).  `Except` carries that exception. -/

/-- `v?.toDate?.()`. -/
def optCallToDate (v : JsVal) : Except Unit JsVal :=
  match v with
  | .vnull => .ok .vnull
  | .vobj fields =>
    match lookupRaw fields "toDate" with
    | .vnull => .ok .vnull
    | .vfun res =>
      match res with
      | .error _ => .error ()
      | .ok od => .ok (.vdate od)
    | _ => .error ()
  | _ => .ok .vnull

/-- The full right-hand side assigned to `dateOfDiksha` by the detail screen. -/
def detailDateOfDiksha (raw : RawDoc) : Except Unit JsVal := do
  let v := lookupRaw raw "dateOfDiksha"
  let called ← optCallToDate v
  match called with
  | .vnull =>
    match v with
    | .vobj fields =>
      if truthy (.vobj fields) then
        match lookupRaw fields "seconds" with
        | .vnum sd =>
          let ns : ℚ :=
            match lookupRaw fields "nanoseconds" with
            | .vnum nd => nd.val
            | _ => 0
          pure (.vdate (dateClip (sd.val * 1000 + (jsRound (ns / 1000000) : ℚ))))
        | _ => pure v
      else pure v
    | _ => pure (jsCoalesce v .vnull)
  | d => pure d

/-! ## The map screen's filter & sort pipeline

Records enter already distance-annotated (`distance?: number`); the fetch
effect sorts them by `(a.distance ?? Infinity) - (b.distance ?? Infinity)`
and the filter effect applies the distance bound and then the name search.
`Array.prototype.sort` is a stable sort, and a stable sort with respect to a
total preorder is extensionally unique, so it is embedded as Mathlib's
(stable) `insertionSort` over the comparator's preorder. -/

structure SaintOnMap where
  id : Nat
  name : String
  distance : Option ℚ
  deriving DecidableEq

/-- `(a ?? Infinity) <= (b ?? Infinity)`: the comparator's preorder. -/
def distLeB : Option ℚ → Option ℚ → Bool
  | _, none => true
  | none, some _ => false
  | some a, some b => decide (a ≤ b)

def saintLe (a b : SaintOnMap) : Prop := distLeB a.distance b.distance = true

instance : DecidableRel saintLe := fun _ _ =>
  inferInstanceAs (Decidable (_ = true))

/-- The fetch effect's `mapped.sort(...)`. -/
def sortSaints (l : List SaintOnMap) : List SaintOnMap :=
  List.insertionSort saintLe l

/-- `(s.distance ?? Infinity) <= distanceFilter` for a finite bound: an
absent distance compares as `Infinity` and fails. -/
def withinB (d : Option ℚ) (b : ℚ) : Bool :=
  match d with
  | none => false
  | some x => decide (x ≤ b)

/-- The filter effect (map screen, lines 531–546).  `bound = none` models
`distanceFilter === Infinity`. -/
def mapFilterEffect (bound : Option ℚ) (q : String) (l : List SaintOnMap) :
    List SaintOnMap :=
  let l1 :=
    match bound with
    | none => l
    | some b => l.filter fun s => withinB s.distance b
  if jsTrim q.toList = [] then l1
  else l1.filter fun s => containsSeq (jsLower q.toList) (jsLower s.name.toList)

/-- Fetch-sorted list fed through the filter effect: the displayed list. -/
def mapPipeline (bound : Option ℚ) (q : String) (l : List SaintOnMap) :
    List SaintOnMap :=
  mapFilterEffect bound q (sortSaints l)

/-! ## The text filters (home screen lines 116–128, events screen 97–111) -/

structure SaintText where
  name : String
  location : String
  designation : String
  deriving DecidableEq

structure EventText where
  title : String
  saintName : String
  locationName : String
  deriving DecidableEq

def matchesQuery (q field : String) : Bool :=
  containsSeq (jsLower q.toList) (jsLower field.toList)

/-- The home screen's search effect. -/
def homeSearchFilter (q : String) (l : List SaintText) : List SaintText :=
  if jsTrim q.toList = [] then l
  else l.filter fun s =>
    matchesQuery q s.name || matchesQuery q s.location || matchesQuery q s.designation

/-- The events screen's text-filter step (applied after the type filter). -/
def eventsSearchStep (q : String) (l : List EventText) : List EventText :=
  if jsTrim q.toList = [] then l
  else l.filter fun e =>
    matchesQuery q e.title || matchesQuery q e.saintName || matchesQuery q e.locationName

/-! ## Encodings of an instant (for the cross-encoding agreement claim)

An instant is identified by its nanoseconds since the Unix epoch, `T`.
Millisecond-precision encodings (a `Date`, a returned `toDate()` value, an
ISO string, a 13-digit epoch-millisecond number) carry `⌊T / 10⁶⌋`; the
`{seconds, nanoseconds}` encoding carries the exact split `T = s·10⁹ + n`
with `0 ≤ n < 10⁹` (the Firestore invariant); a 10-digit number carries
whole epoch seconds. -/
inductive Represents : JsVal → Int → Prop
  | tsObj (T m : Int) (h : m = ⌊(T : ℚ) / 1000000⌋) :
      Represents (.vobj [("toDate", .vfun (.ok (some m)))]) T
  | secNs (T s n : Int) (h0 : 0 ≤ n) (h1 : n < 1000000000)
      (hT : s * 1000000000 + n = T) :
      Represents
        (.vobj [("seconds", .vnum (mkIntDec s)), ("nanoseconds", .vnum (mkIntDec n))]) T
  | num10 (T v : Int) (h1 : 1000000000 ≤ v) (h2 : v < 10000000000)
      (hT : T = v * 1000000000) : Represents (.vnum (mkIntDec v)) T
  | num13 (T v : Int) (h1 : 1000000000000 ≤ v) (h2 : v < 10000000000000)
      (hT : T = v * 1000000) : Represents (.vnum (mkIntDec v)) T
  | date (T m : Int) (h : m = ⌊(T : ℚ) / 1000000⌋) : Represents (.vdate (some m)) T
  | iso (T : Int) (s : String) (h : dateParse s = some ⌊(T : ℚ) / 1000000⌋) :
      Represents (.vstr s) T

instance : IsTotal SaintOnMap saintLe :=
  ⟨by
    intro a b
    unfold saintLe
    cases a.distance <;> cases b.distance <;> simp [distLeB]
    exact le_total _ _⟩

instance : IsTrans SaintOnMap saintLe :=
  ⟨by
    intro a b c hab hbc
    unfold saintLe at *
    cases ha : a.distance <;> cases hb : b.distance <;> cases hc : c.distance <;>
      simp_all [distLeB]
    exact le_trans hab hbc⟩

/-! ## Helper lemmas -/

theorem numDigitsGo_eq (k : ℕ) : ∀ (f n : ℕ), n < f → 10 ^ k ≤ n → n < 10 ^ (k + 1) →
    numDigitsGo f n = k + 1 := by
  induction k with
  | zero =>
    intro f n hf h1 h2
    match f, hf with
    | f + 1, _ =>
      simp only [numDigitsGo]
      rw [if_pos]
      simpa using h2
  | succ k ih =>
    intro f n hf h1 h2
    match f, hf with
    | f + 1, hf =>
      simp only [numDigitsGo]
      have h10 : 10 ≤ n := by
        have : (10 : ℕ) ^ 1 ≤ 10 ^ (k + 1) := Nat.pow_le_pow_right (by norm_num) (by omega)
        calc (10 : ℕ) = 10 ^ 1 := (pow_one 10).symm
        _ ≤ 10 ^ (k + 1) := this
        _ ≤ n := h1
      rw [if_neg (by omega)]
      have hdf : n / 10 < f := by
        have : n / 10 < n := Nat.div_lt_self (by omega) (by omega)
        omega
      have hd1 : 10 ^ k ≤ n / 10 := by
        rw [Nat.le_div_iff_mul_le (by norm_num)]
        calc 10 ^ k * 10 = 10 ^ (k + 1) := by ring
        _ ≤ n := h1
      have hd2 : n / 10 < 10 ^ (k + 1) := by
        rw [Nat.div_lt_iff_lt_mul (by norm_num)]
        calc n < 10 ^ (k + 2) := h2
        _ = 10 ^ (k + 1) * 10 := by ring
      rw [ih f (n / 10) hdf hd1 hd2]

theorem numDigits_eq {k n : ℕ} (h1 : 10 ^ k ≤ n) (h2 : n < 10 ^ (k + 1)) :
    numDigits n = k + 1 :=
  numDigitsGo_eq k (n + 1) n (by omega) h1 h2

theorem val_mkIntDec (v : ℤ) : (mkIntDec v).val = (v : ℚ) := by
  unfold mkIntDec JsDec.val
  by_cases h : v < 0
  · simp [h, fracVal]
    rw [Int.cast_natAbs, abs_of_neg h]
    push_cast
    ring
  · simp [h, fracVal]
    rw [Int.cast_natAbs, abs_of_nonneg (not_lt.mp h)]

theorem strLen_mkIntDec_nonneg {v : ℤ} (h : 0 ≤ v) :
    (mkIntDec v).strLen = numDigits v.natAbs := by
  have : decide (v < 0) = false := by simp [not_lt.mpr h]
  simp [mkIntDec, JsDec.strLen, this]

theorem ratTrunc_intCast (k : ℤ) : ratTrunc (k : ℚ) = k := by
  unfold ratTrunc
  split
  · exact Int.floor_intCast k
  · exact Int.ceil_intCast k

theorem dateClip_intCast {k : ℤ} (h : k.natAbs ≤ 8640000000000000) :
    dateClip (k : ℚ) = some k := by
  unfold dateClip
  rw [if_pos, ratTrunc_intCast]
  rw [← Int.cast_abs, Int.abs_eq_natAbs]
  exact_mod_cast h

theorem dateClip_eq_some {q : ℚ} {m : ℤ} (h : dateClip q = some m) : m = ratTrunc q := by
  unfold dateClip at h
  split at h
  · exact (Option.some_injective _ h).symm
  · exact absurd h (by simp)

theorem distLeB_none_right (a : Option ℚ) : distLeB a none = true := by
  cases a <;> rfl

theorem distLeB_none_left_iff (b : Option ℚ) : distLeB none b = true ↔ b = none := by
  cases b <;> simp [distLeB]

theorem ne_of_not_distLeB {x y : Option ℚ} (h : ¬ distLeB x y = true) : y ≠ x := by
  intro hxy
  apply h
  rw [hxy]
  cases x <;> simp [distLeB]

/-- Stability of one ordered insertion: the inserted element goes in front of
every element with the same distance key, and past only elements with a
strictly smaller key, so filtering by a fixed key commutes with insertion. -/
theorem filter_orderedInsert_dist (c : Option ℚ) (x : SaintOnMap) :
    ∀ s : List SaintOnMap,
      (List.orderedInsert saintLe x s).filter (fun r => decide (r.distance = c)) =
        if x.distance = c then
          x :: s.filter (fun r => decide (r.distance = c))
        else s.filter (fun r => decide (r.distance = c)) := by
  intro s
  induction s with
  | nil =>
    simp only [List.orderedInsert, List.filter]
    split <;> simp_all
  | cons b t ih =>
    rw [List.orderedInsert]
    by_cases hxb : saintLe x b
    · rw [if_pos hxb]
      simp only [List.filter_cons]
      split <;> split <;> simp_all
    · rw [if_neg hxb]
      have hbx : b.distance ≠ x.distance := ne_of_not_distLeB hxb
      by_cases hx : x.distance = c
      · have hb : b.distance ≠ c := fun hbc => hbx (hbc.trans hx.symm)
        simp [List.filter_cons, ih, hx, hb]
      · simp [List.filter_cons, ih, hx]

/-- Stability of the whole sort: records with any fixed distance key appear in
the sorted list exactly in their input order. -/
theorem filter_sortSaints_dist (c : Option ℚ) :
    ∀ l : List SaintOnMap,
      (sortSaints l).filter (fun r => decide (r.distance = c)) =
        l.filter (fun r => decide (r.distance = c)) := by
  intro l
  induction l with
  | nil => rfl
  | cons a t ih =>
    have hs : sortSaints (a :: t) = List.orderedInsert saintLe a (sortSaints t) := rfl
    rw [hs, filter_orderedInsert_dist]
    by_cases ha : a.distance = c
    · rw [if_pos ha, ih, List.filter_cons]
      simp [ha]
    · rw [if_neg ha, ih, List.filter_cons]
      simp [ha]

/-! ## Claim theorems -/

/-- **C1, counterexample.**  The claim says a finite `maxDistanceKm` keeps
every absent-distance record and that the example list filters and sorts to
distances `[3, 12, 50, Absent]`.  The code's filter is
`(s.distance ?? Infinity) <= distanceFilter`, so an absent distance compares
as `Infinity` and is dropped: the pipeline output is the records with
distances `[3, 12, 50]`, the absent-distance record is not in the output, and
the output differs from the claimed list. -/
theorem c1_counterexample :
    mapPipeline (some 50) ""
        [⟨0, "a", some 3⟩, ⟨1, "b", some 50⟩, ⟨2, "c", none⟩,
          ⟨3, "d", some 12⟩, ⟨4, "e", some 200⟩] =
      [⟨0, "a", some 3⟩, ⟨3, "d", some 12⟩, ⟨1, "b", some 50⟩] ∧
    (⟨2, "c", none⟩ : SaintOnMap) ∉ mapPipeline (some 50) ""
        [⟨0, "a", some 3⟩, ⟨1, "b", some 50⟩, ⟨2, "c", none⟩,
          ⟨3, "d", some 12⟩, ⟨4, "e", some 200⟩] ∧
    mapPipeline (some 50) ""
        [⟨0, "a", some 3⟩, ⟨1, "b", some 50⟩, ⟨2, "c", none⟩,
          ⟨3, "d", some 12⟩, ⟨4, "e", some 200⟩] ≠
      [⟨0, "a", some 3⟩, ⟨3, "d", some 12⟩, ⟨1, "b", some 50⟩, ⟨2, "c", none⟩] :=
  ⟨by decide, by decide, by decide⟩

/-- **C1, amended.**  When the maximum-distance bound is finite, a record is
kept by the distance filter iff its distance is present and at most the
bound; records with an absent distance are dropped (they compare as
`Infinity`).  For the example distances `[3, 50, Absent, 12, 200]` and bound
50 the filtered-and-sorted result is `[3, 12, 50]`. -/
theorem c1_distance_filter_amended :
    (∀ (b : ℚ) (l : List SaintOnMap) (r : SaintOnMap),
        r ∈ mapFilterEffect (some b) "" l ↔
          r ∈ l ∧ ∃ d, r.distance = some d ∧ d ≤ b) ∧
    mapPipeline (some 50) ""
        [⟨0, "a", some 3⟩, ⟨1, "b", some 50⟩, ⟨2, "c", none⟩,
          ⟨3, "d", some 12⟩, ⟨4, "e", some 200⟩] =
      [⟨0, "a", some 3⟩, ⟨3, "d", some 12⟩, ⟨1, "b", some 50⟩] := by
  constructor
  · intro b l r
    have ht : jsTrim ("" : String).toList = [] := rfl
    simp only [mapFilterEffect, ht, if_pos, List.mem_filter]
    constructor
    · rintro ⟨hm, hw⟩
      refine ⟨hm, ?_⟩
      cases hr : r.distance with
      | none => rw [hr] at hw; exact absurd hw (by simp [withinB])
      | some x =>
        rw [hr] at hw
        exact ⟨x, rfl, by simpa [withinB] using hw⟩
    · rintro ⟨hm, d, hd, hdb⟩
      exact ⟨hm, by simp [withinB, hd, hdb]⟩
  · decide

/-- **C3, confirmed.**  The fetch effect's sort
(`(a.distance ?? Infinity) - (b.distance ?? Infinity)` under the stable
`Array.prototype.sort`, embedded as a stable insertion sort over the induced
preorder) is ascending in the distance key, places every absent-distance
record after every distance-bearing record, permutes the input, and keeps
records with equal keys (including two absent ones) in input order. -/
theorem c3_sort_ordered_stable :
    ∀ l : List SaintOnMap,
      List.Sorted saintLe (sortSaints l) ∧
      List.Pairwise (fun a b => a.distance = none → b.distance = none) (sortSaints l) ∧
      (sortSaints l).Perm l ∧
      ∀ c : Option ℚ,
        (sortSaints l).filter (fun r => decide (r.distance = c)) =
          l.filter (fun r => decide (r.distance = c)) := by
  intro l
  refine ⟨List.sorted_insertionSort saintLe l, ?_,
    List.perm_insertionSort saintLe l, fun c => filter_sortSaints_dist c l⟩
  refine (List.sorted_insertionSort saintLe l).imp ?_
  intro a b hab ha
  unfold saintLe at hab
  rw [ha] at hab
  exact (distLeB_none_left_iff b.distance).mp hab

/-- **C2, counterexample.**  The claim says a present result always satisfies
the latitude/longitude range invariant and that `{latitude: 91, longitude: 0}`
yields Absent.  `parseCoordinatesFlexible` performs no range validation: that
input parses to `{91, 0}`, which is a present result whose latitude exceeds
90. -/
theorem c2_counterexample :
    parseCoordinatesFlexible
        (.vobj [("latitude", .vnum (mkIntDec 91)), ("longitude", .vnum (mkIntDec 0))]) =
      some ⟨91, 0⟩ ∧
    (some (⟨91, 0⟩ : Coord) ≠ none) ∧ ¬ ((91 : ℚ) ≤ 90) := by
  refine ⟨?_, by simp, by norm_num⟩
  have h : parseCoordinatesFlexible
      (.vobj [("latitude", .vnum (mkIntDec 91)), ("longitude", .vnum (mkIntDec 0))]) =
      some ⟨(mkIntDec 91).val, (mkIntDec 0).val⟩ := rfl
  rw [h, val_mkIntDec, val_mkIntDec]
  norm_num

/-- **C2, amended.**  The object branch of the coordinate normalizer returns
whatever pair of numbers it finds, with no range check: any object with
numeric `latitude`/`longitude` yields exactly those values (so out-of-range
inputs such as `{latitude: 91, longitude: 0}` parse to `{91, 0}` rather than
Absent), and `{latitude: 26.9, longitude: 75.8}` parses to `{26.9, 75.8}` as
the claim's second example states. -/
theorem c2_no_range_check_amended :
    (∀ la lo : JsDec,
        parseCoordinatesFlexible
            (.vobj [("latitude", .vnum la), ("longitude", .vnum lo)]) =
          some ⟨la.val, lo.val⟩) ∧
    parseCoordinatesFlexible
        (.vobj [("latitude", .vnum ⟨false, 26, [9]⟩), ("longitude", .vnum ⟨false, 75, [8]⟩)]) =
      some ⟨26.9, 75.8⟩ := by
  constructor
  · intro la lo
    rfl
  · have h : parseCoordinatesFlexible
        (.vobj [("latitude", .vnum ⟨false, 26, [9]⟩), ("longitude", .vnum ⟨false, 75, [8]⟩)]) =
        some ⟨(⟨false, 26, [9]⟩ : JsDec).val, (⟨false, 75, [8]⟩ : JsDec).val⟩ := rfl
    rw [h]
    norm_num [JsDec.val, fracVal, Coord.mk.injEq,
      show ((9 : Fin 10) : ℕ) = 9 from rfl, show ((8 : Fin 10) : ℕ) = 8 from rfl]

/-- **C4, counterexample.**  The claim says the assembler never falls through
to a lower-priority key because the higher-priority key's value is empty.
The home screen resolves `amber` with `data.Amber || data.amber || ''`, and
`||` skips any falsy value: with `Amber` present but empty and `amber` set to
`"Shwetamber"`, the assembled field is `"Shwetamber"`, not the empty value of
the first present key. -/
theorem c4_counterexample :
    (assembleSaint "s1" [("Amber", .vstr ""), ("amber", .vstr "Shwetamber")]).amber =
      .vstr "Shwetamber" ∧
    JsVal.vstr "Shwetamber" ≠ .vstr "" :=
  ⟨rfl, by simp⟩

/-- **C4, amended.**  Key priority as implemented: the home screen's
`||`-chains use the first source key whose value is truthy and fall through
past a present-but-falsy (e.g. empty-string) value; the map screen's
`??`-chain for the coordinate candidate uses the first non-nullish key
regardless of whether its value later parses. -/
theorem c4_key_priority_amended :
    (∀ (doc : List (String × JsVal)) (v : JsVal), truthy v = true →
        (assembleSaint "x" (("Amber", v) :: doc)).amber = v) ∧
    (∀ (doc : List (String × JsVal)) (v : JsVal), truthy v = false →
        (assembleSaint "x" (("Amber", v) :: doc)).amber =
          jsOr (lookupRaw doc "amber") (.vstr "")) ∧
    (∀ (raw : List (String × JsVal)) (v : JsVal), isNull v = false →
        candidateOf (("coordinates", v) :: raw) = v) := by
  refine ⟨fun doc v hv => ?_, fun doc v hv => ?_, fun raw v hv => ?_⟩
  · have h1 : lookupRaw (("Amber", v) :: doc) "Amber" = v := by simp [lookupRaw]
    have h2 : truthy (jsOr v (lookupRaw (("Amber", v) :: doc) "amber")) = true := by
      simp [jsOr, hv]
    simp [assembleSaint, h1, jsOr, hv]
  · have h1 : lookupRaw (("Amber", v) :: doc) "Amber" = v := by simp [lookupRaw]
    have h2 : lookupRaw (("Amber", v) :: doc) "amber" = lookupRaw doc "amber" := by
      simp [lookupRaw]
    simp [assembleSaint, h1, h2, jsOr, hv]
  · have h1 : lookupRaw (("coordinates", v) :: raw) "coordinates" = v := by
      simp [lookupRaw]
    simp [candidateOf, h1, jsCoalesce, hv]

/-- **C4, witness.** -/
theorem c4_witness :
    (assembleSaint "x" (("Amber", .vstr "T") :: [])).amber = .vstr "T" ∧
    candidateOf (("coordinates", .vstr "24.8,80.0") :: []) = .vstr "24.8,80.0" :=
  ⟨c4_key_priority_amended.1 [] (.vstr "T") (by decide),
   c4_key_priority_amended.2.2 [] (.vstr "24.8,80.0") (by decide)⟩

/-- **C6, counterexample.**  The claim says the bare-number branch keys on the
number's decimal digit count for all numbers, including negative ones.
`-123456789` has 9 decimal digits, so the claim predicts it is taken as
milliseconds; but `String(-123456789).length` is 10 (the minus sign counts),
so the code multiplies by 1000 and yields `-123456789000` ms. -/
theorem c6_counterexample :
    (mkIntDec (-123456789)).digitCount = 9 ∧
    toDateSafe (.vnum (mkIntDec (-123456789))) = some (-123456789000) ∧
    (-123456789000 : ℤ) ≠ -123456789 := by
  refine ⟨by decide, ?_, by decide⟩
  have h : (mkIntDec (-123456789)).strLen = 10 := by decide
  have hv : (mkIntDec (-123456789)).val * 1000 = ((-123456789000 : ℤ) : ℚ) := by
    rw [val_mkIntDec]
    push_cast
    ring
  show dateClip (if (mkIntDec (-123456789)).strLen = 10
      then (mkIntDec (-123456789)).val * 1000 else (mkIntDec (-123456789)).val) = _
  rw [if_pos h, hv, dateClip_intCast (by norm_num)]

/-- **C6, amended.**  The branch multiplies by 1000 exactly when
`String(value).length = 10`, where the string length counts a minus sign and
a decimal point; for nonnegative integers this coincides with the decimal
digit count (so the claim holds there), but e.g. the 9-digit negative integer
`-123456789` also has string length 10 and is treated as seconds. -/
theorem c6_number_branch_amended :
    (∀ d : JsDec, d.strLen = 10 → toDateSafe (.vnum d) = dateClip (d.val * 1000)) ∧
    (∀ d : JsDec, d.strLen ≠ 10 → toDateSafe (.vnum d) = dateClip d.val) ∧
    (∀ v : ℤ, 0 ≤ v → (mkIntDec v).strLen = (mkIntDec v).digitCount) ∧
    (mkIntDec (-123456789)).strLen = 10 ∧ (mkIntDec (-123456789)).digitCount = 9 := by
  refine ⟨fun d h => ?_, fun d h => ?_, fun v hv => ?_, by decide, by decide⟩
  · show dateClip (if d.strLen = 10 then d.val * 1000 else d.val) = _
    rw [if_pos h]
  · show dateClip (if d.strLen = 10 then d.val * 1000 else d.val) = _
    rw [if_neg h]
  · have hd : decide (v < 0) = false := by simp [not_lt.mpr hv]
    simp [mkIntDec, JsDec.strLen, JsDec.digitCount, hd]

/-- **C6, witness.** -/
theorem c6_witness :
    toDateSafe (.vnum (mkIntDec 1700000000)) = dateClip ((mkIntDec 1700000000).val * 1000) ∧
    (mkIntDec 1700000000).strLen = (mkIntDec 1700000000).digitCount :=
  ⟨c6_number_branch_amended.1 (mkIntDec 1700000000) (by decide),
   c6_number_branch_amended.2.2.1 1700000000 (by decide)⟩

/-- Every segment produced by splitting at `sep` is free of `sep`. -/
theorem splitChar_not_mem (sep : Char) :
    ∀ (l : List Char), ∀ seg ∈ splitChar sep l, sep ∉ seg := by
  intro l
  induction l with
  | nil =>
    intro seg hs
    simp only [splitChar, List.mem_singleton] at hs
    simp [hs]
  | cons c cs ih =>
    intro seg hs
    simp only [splitChar] at hs
    by_cases hc : c = sep
    · rw [if_pos hc] at hs
      rcases List.mem_cons.mp hs with h | h
      · simp [h]
      · exact ih seg h
    · rw [if_neg hc] at hs
      cases hr : splitChar sep cs with
      | nil => simp [hr] at hs; simp [hs, Ne.symm hc]
      | cons h t =>
        rw [hr] at hs
        rcases List.mem_cons.mp hs with h1 | h1
        · subst h1
          intro hmem
          rcases List.mem_cons.mp hmem with h2 | h2
          · exact hc h2.symm
          · exact ih h (by rw [hr]; exact List.mem_cons_self h t) h2
        · exact ih seg (by rw [hr]; exact List.mem_cons_of_mem h h1)

/-- A present last segment contains no separator. -/
theorem lastSeg_no_slash {l r : List Char} (h : lastSeg l = some r) : '/' ∉ r := by
  unfold lastSeg at h
  cases hg : (splitChar '/' l).getLast? with
  | none => rw [hg] at h; simp at h
  | some last =>
    rw [hg] at h
    dsimp only at h
    by_cases he : last = []
    · rw [if_pos he] at h
      simp at h
    · rw [if_neg he] at h
      have hlr : last = r := Option.some_injective _ h
      subst hlr
      exact splitChar_not_mem '/' l _ (List.mem_of_mem_getLast? hg)

/-- The object branch's `path` fallback: a present result has no slash. -/
theorem pathCase_no_slash {fields : List (String × JsVal)} {out : String}
    (h : (match lookupRaw fields "path" with
          | JsVal.vstr p => (lastSeg p.toList).map (fun l => String.mk l)
          | _ => none) = some out) : '/' ∉ out.toList := by
  cases hp : lookupRaw fields "path" with
  | vstr p =>
    simp only [hp] at h
    rw [Option.map_eq_some'] at h
    obtain ⟨r, hr, hout⟩ := h
    rw [← hout]
    exact lastSeg_no_slash hr
  | vnull => simp only [hp] at h; exact Option.noConfusion h
  | vbool b => simp only [hp] at h; exact Option.noConfusion h
  | vnum d => simp only [hp] at h; exact Option.noConfusion h
  | vdate od => simp only [hp] at h; exact Option.noConfusion h
  | vfun f => simp only [hp] at h; exact Option.noConfusion h
  | vobj g => simp only [hp] at h; exact Option.noConfusion h

/-- **C7, counterexample.**  Two points of the claim fail.  (a) It says a
present result never contains a `/` separator, but the object `id` branch
returns the `id` string verbatim: `{id: "users/xyz"}` normalizes to
`"users/xyz"`, which contains `/`.  (b) It says the string branch returns the
last NON-EMPTY segment, but the code takes `parts[parts.length-1] || null`:
for `"saint/abc/"` the last segment is empty and the result is Absent, not
`"abc"`. -/
theorem c7_counterexample :
    extractId (.vobj [("id", .vstr "users/xyz")]) = some "users/xyz" ∧
    ('/' ∈ "users/xyz".toList) ∧
    extractId (.vstr "saint/abc/") = none ∧
    extractId (.vstr "saint/abc/") ≠ some "abc" :=
  ⟨by decide, by decide, by decide, by decide⟩

/-- **C7, amended.**  The reference normalizer tries, in order: an object
with a NONEMPTY string `id` (returned verbatim, possibly containing `/`);
an object with a string `path`, split on `/` with the FINAL segment returned
if nonempty and Absent otherwise; a plain string, one leading `/` stripped,
split on `/`, final segment returned if nonempty.  Null, undefined and the
empty string give Absent.  The claim's five examples hold, and every present
result either is a verbatim object `id` or contains no `/`. -/
theorem c7_reference_normalizer_amended :
    extractId (.vstr "saint/abc123") = some "abc123" ∧
    extractId (.vstr "/saint/abc123") = some "abc123" ∧
    extractId (.vobj [("path", .vstr "users/xyz")]) = some "xyz" ∧
    extractId (.vobj [("id", .vstr "xyz")]) = some "xyz" ∧
    extractId (.vstr "") = none ∧
    extractId .vnull = none ∧
    (∀ (v : JsVal) (out : String), extractId v = some out →
      (∃ fields, v = .vobj fields ∧ lookupRaw fields "id" = .vstr out) ∨
        '/' ∉ out.toList) := by
  refine ⟨by decide, by decide, by decide, by decide, by decide, by decide, ?_⟩
  intro v out h
  cases v with
  | vnull => exact absurd h (by simp [extractId])
  | vbool b => exact absurd h (by simp [extractId])
  | vnum d => exact absurd h (by simp [extractId])
  | vdate od => exact absurd h (by simp [extractId])
  | vfun f => exact absurd h (by simp [extractId])
  | vstr s =>
    right
    simp only [extractId] at h
    rw [Option.map_eq_some'] at h
    obtain ⟨r, hr, hout⟩ := h
    rw [← hout]
    exact lastSeg_no_slash hr
  | vobj fields =>
    simp only [extractId] at h
    cases hid : lookupRaw fields "id" with
    | vstr s =>
      simp only [hid] at h
      by_cases hse : s = ""
      · rw [if_pos hse] at h
        exact Or.inr (pathCase_no_slash h)
      · rw [if_neg hse] at h
        exact Or.inl ⟨fields, rfl, by rw [hid, Option.some_injective _ h]⟩
    | vnull => simp only [hid] at h; exact Or.inr (pathCase_no_slash h)
    | vbool b => simp only [hid] at h; exact Or.inr (pathCase_no_slash h)
    | vnum d => simp only [hid] at h; exact Or.inr (pathCase_no_slash h)
    | vdate od => simp only [hid] at h; exact Or.inr (pathCase_no_slash h)
    | vfun f => simp only [hid] at h; exact Or.inr (pathCase_no_slash h)
    | vobj g => simp only [hid] at h; exact Or.inr (pathCase_no_slash h)

/-- **C7, witness.** -/
theorem c7_witness :
    (∃ fields, JsVal.vstr "saint/abc123" = .vobj fields ∧
        lookupRaw fields "id" = .vstr "abc123") ∨
      '/' ∉ "abc123".toList :=
  c7_reference_normalizer_amended.2.2.2.2.2.2 (.vstr "saint/abc123") "abc123" (by decide)

/-- Looking any key up in a document whose values are all falsy yields a
falsy value (the key is either absent — `undefined` — or bound to one of the
falsy values). -/
theorem truthy_lookupRaw_false {data : List (String × JsVal)}
    (h : ∀ kv ∈ data, truthy kv.2 = false) (key : String) :
    truthy (lookupRaw data key) = false := by
  induction data with
  | nil => rfl
  | cons kv rest ih =>
    obtain ⟨k, v⟩ := kv
    show truthy (if k = key then v else lookupRaw rest key) = false
    by_cases hk : k = key
    · rw [if_pos hk]
      exact h (k, v) (List.mem_cons_self _ _)
    · rw [if_neg hk]
      exact ih fun kv hm => h kv (List.mem_cons_of_mem _ hm)

/-- **C8, code bug.**  The home screen's assembler indeed never throws and
maps an empty document — or any document from which nothing truthy is
recoverable — to the all-defaults record, field by field.  But the detail
screen's assembler (the other code site of this claim) evaluates
`raw?.dateOfDiksha?.toDate?.()` with no local catch: when `dateOfDiksha` is
an object whose `toDate` is non-nullish but not callable, the optional call
raises a `TypeError` that escapes to the outer catch, nulling the WHOLE
record — a record-level failure the claim rules out.  This contradicts the
code's own defensive design (the same repository's `toDateSafe` wraps the
same call in `try`/`catch`). -/
theorem c8_detail_assembler_throws :
    detailDateOfDiksha [("dateOfDiksha", .vobj [("toDate", .vnum (mkIntDec 42))])] =
      .error () ∧
    (∀ id, assembleSaint id [] = defaultSaint id) ∧
    (∀ (id : String) (data : List (String × JsVal)),
        (∀ kv ∈ data, truthy kv.2 = false) → assembleSaint id data = defaultSaint id) ∧
    detailDateOfDiksha [] = .ok .vnull := by
  refine ⟨rfl, fun id => rfl, ?_, rfl⟩
  intro id data h
  have hl := truthy_lookupRaw_false h
  simp [assembleSaint, defaultSaint, jsOr, hl]

/-- **C8, witness.** -/
theorem c8_witness :
    assembleSaint "w" [("name", .vnull), ("designation", .vstr ""),
        ("Amber", .vbool false)] = defaultSaint "w" :=
  c8_detail_assembler_throws.2.2.1 "w"
    [("name", .vnull), ("designation", .vstr ""), ("Amber", .vbool false)] (by decide)

/-- **C9, confirmed.**  The three scalar normalizers are total functions into
`Option`: every input yields either a canonical value or Absent.  A thrown
exception inside the `toDate()` conversion branch is caught and becomes that
branch's failure (Absent), and null/undefined yield Absent everywhere. -/
theorem c9_normalizers_total :
    (∀ v, toDateSafe v = none ∨ ∃ m, toDateSafe v = some m) ∧
    (∀ fields, lookupRaw fields "toDate" = .vfun (.error ()) →
        toDateSafe (.vobj fields) = none) ∧
    toDateSafe .vnull = none ∧
    parseCoordinatesFlexible .vnull = none ∧
    extractId .vnull = none ∧
    (∀ v, parseCoordinatesFlexible v = none ∨ ∃ c, parseCoordinatesFlexible v = some c) ∧
    (∀ v, extractId v = none ∨ ∃ s, extractId v = some s) := by
  refine ⟨?_, ?_, rfl, rfl, rfl, ?_, ?_⟩
  · intro v
    cases h : toDateSafe v with
    | none => exact Or.inl rfl
    | some m => exact Or.inr ⟨m, rfl⟩
  · intro fields h
    show (match lookupRaw fields "toDate" with
      | JsVal.vfun res =>
        match res with
        | .error _ => none
        | .ok (some ms) => some ms
        | .ok none => none
      | _ =>
        match lookupRaw fields "seconds" with
        | JsVal.vnum sd =>
          dateClip (sd.val * 1000 +
            ((jsRound ((match lookupRaw fields "nanoseconds" with
              | JsVal.vnum nd => nd.val
              | _ => 0) / 1000000)) : ℚ))
        | _ => none) = none
    rw [h]
  · intro v
    cases h : parseCoordinatesFlexible v with
    | none => exact Or.inl rfl
    | some c => exact Or.inr ⟨c, rfl⟩
  · intro v
    cases h : extractId v with
    | none => exact Or.inl rfl
    | some s => exact Or.inr ⟨s, rfl⟩

/-- **C9, witness.** -/
theorem c9_witness : toDateSafe (.vobj [("toDate", .vfun (.error ()))]) = none :=
  c9_normalizers_total.2.1 [("toDate", .vfun (.error ()))] rfl

/-- **C10, confirmed.**  With an empty trimmed query both text filters keep
everything; with a non-empty trimmed query a record is kept iff the
lower-cased query is a substring of one of its kind-specific searchable
fields (name/location/designation for saints, title/host-name/address for
events); matching is case-insensitive, so `"ram"` matches
`"Sant Ramesh Das"`. -/
theorem c10_text_filter :
    (∀ q l, jsTrim q.toList = [] → homeSearchFilter q l = l) ∧
    (∀ (q : String) (l : List SaintText) (s : SaintText), jsTrim q.toList ≠ [] →
        (s ∈ homeSearchFilter q l ↔ s ∈ l ∧
          (matchesQuery q s.name = true ∨ matchesQuery q s.location = true ∨
            matchesQuery q s.designation = true))) ∧
    (∀ q l, jsTrim q.toList = [] → eventsSearchStep q l = l) ∧
    (∀ (q : String) (l : List EventText) (e : EventText), jsTrim q.toList ≠ [] →
        (e ∈ eventsSearchStep q l ↔ e ∈ l ∧
          (matchesQuery q e.title = true ∨ matchesQuery q e.saintName = true ∨
            matchesQuery q e.locationName = true))) ∧
    homeSearchFilter "ram" [⟨"Sant Ramesh Das", "", ""⟩] =
      [⟨"Sant Ramesh Das", "", ""⟩] := by
  refine ⟨fun q l h => ?_, fun q l s h => ?_, fun q l h => ?_, fun q l e h => ?_, by decide⟩
  · have h' : jsTrim q.data = [] := h
    simp [homeSearchFilter, h']
  · have h' : ¬ jsTrim q.data = [] := h
    simp [homeSearchFilter, h', List.mem_filter, or_assoc]
  · have h' : jsTrim q.data = [] := h
    simp [eventsSearchStep, h']
  · have h' : ¬ jsTrim q.data = [] := h
    simp [eventsSearchStep, h', List.mem_filter, or_assoc]

/-- **C10, witness.** -/
theorem c10_witness :
    (⟨"Sant Ramesh Das", "", ""⟩ : SaintText) ∈
        homeSearchFilter "ram" [⟨"Sant Ramesh Das", "", ""⟩] ↔
      (⟨"Sant Ramesh Das", "", ""⟩ : SaintText) ∈
          [(⟨"Sant Ramesh Das", "", ""⟩ : SaintText)] ∧
        (matchesQuery "ram" "Sant Ramesh Das" = true ∨ matchesQuery "ram" "" = true ∨
          matchesQuery "ram" "" = true) :=
  c10_text_filter.2.1 "ram" [⟨"Sant Ramesh Das", "", ""⟩] ⟨"Sant Ramesh Das", "", ""⟩
    (by decide)

/-- `Math.round` moves a value's floor up by at most one. -/
theorem jsRound_bounds (x : ℚ) : ⌊x⌋ ≤ jsRound x ∧ jsRound x ≤ ⌊x⌋ + 1 := by
  unfold jsRound
  constructor
  · exact Int.floor_mono (by linarith)
  · calc ⌊x + 1 / 2⌋ ≤ ⌊x + 1⌋ := Int.floor_mono (by linarith)
    _ = ⌊x⌋ + 1 := by rw [show (1 : ℚ) = ((1 : ℤ) : ℚ) by norm_num, Int.floor_add_int]

/-- Millisecond floor of a `{seconds, nanoseconds}` split. -/
theorem floor_secNs (s n : Int) :
    ⌊((s * 1000000000 + n : ℤ) : ℚ) / 1000000⌋ = s * 1000 + ⌊(n : ℚ) / 1000000⌋ := by
  have h : ((s * 1000000000 + n : ℤ) : ℚ) / 1000000 =
      (n : ℚ) / 1000000 + ((s * 1000 : ℤ) : ℚ) := by
    push_cast
    ring
  rw [h, Int.floor_add_int]
  ring

/-- Any present output of `toDateSafe` on an encoding of the instant `T` is
`⌊T/10⁶⌋` or `⌊T/10⁶⌋ + 1` milliseconds. -/
theorem toDateSafe_close {v : JsVal} {T m : Int} (hr : Represents v T)
    (he : toDateSafe v = some m) :
    m = ⌊(T : ℚ) / 1000000⌋ ∨ m = ⌊(T : ℚ) / 1000000⌋ + 1 := by
  cases hr with
  | tsObj T m0 h =>
    have hev : toDateSafe (.vobj [("toDate", .vfun (.ok (some m0)))]) = some m0 := rfl
    rw [hev] at he
    exact Or.inl (by rw [← Option.some_injective _ he]; exact h)
  | secNs T s n h0 h1 hT =>
    have hev : toDateSafe
        (.vobj [("seconds", .vnum (mkIntDec s)), ("nanoseconds", .vnum (mkIntDec n))]) =
        dateClip ((mkIntDec s).val * 1000 + (jsRound ((mkIntDec n).val / 1000000) : ℚ)) :=
      rfl
    rw [hev, val_mkIntDec, val_mkIntDec] at he
    have hq : (s : ℚ) * 1000 + ((jsRound ((n : ℚ) / 1000000) : ℤ) : ℚ) =
        ((s * 1000 + jsRound ((n : ℚ) / 1000000) : ℤ) : ℚ) := by
      push_cast
      ring
    rw [hq] at he
    have hm := dateClip_eq_some he
    rw [ratTrunc_intCast] at hm
    have hfl : ⌊(T : ℚ) / 1000000⌋ = s * 1000 + ⌊(n : ℚ) / 1000000⌋ := by
      rw [← hT]
      exact_mod_cast floor_secNs s n
    have hb := jsRound_bounds ((n : ℚ) / 1000000)
    omega
  | num10 T v h1 h2 hT =>
    have hd9 : (10 : ℕ) ^ 9 = 1000000000 := by norm_num
    have hd10 : (10 : ℕ) ^ 10 = 10000000000 := by norm_num
    have hstr : (mkIntDec v).strLen = 10 := by
      rw [strLen_mkIntDec_nonneg (by omega)]
      have hna1 : 10 ^ 9 ≤ v.natAbs := by omega
      have hna2 : v.natAbs < 10 ^ (9 + 1) := by
        have : (10 : ℕ) ^ (9 + 1) = 10000000000 := by norm_num
        omega
      exact numDigits_eq hna1 hna2
    have hev : toDateSafe (.vnum (mkIntDec v)) =
        dateClip (if (mkIntDec v).strLen = 10
          then (mkIntDec v).val * 1000 else (mkIntDec v).val) := rfl
    rw [hev, if_pos hstr, val_mkIntDec] at he
    have hq : (v : ℚ) * 1000 = ((v * 1000 : ℤ) : ℚ) := by
      push_cast
      ring
    rw [hq] at he
    have hm := dateClip_eq_some he
    rw [ratTrunc_intCast] at hm
    have hf : (T : ℚ) / 1000000 = ((v * 1000 : ℤ) : ℚ) := by
      rw [hT]
      push_cast
      ring
    rw [hf, Int.floor_intCast]
    omega
  | num13 T v h1 h2 hT =>
    have hstr : (mkIntDec v).strLen = 13 := by
      rw [strLen_mkIntDec_nonneg (by omega)]
      have hna1 : 10 ^ 12 ≤ v.natAbs := by
        have : (10 : ℕ) ^ 12 = 1000000000000 := by norm_num
        omega
      have hna2 : v.natAbs < 10 ^ (12 + 1) := by
        have : (10 : ℕ) ^ (12 + 1) = 10000000000000 := by norm_num
        omega
      exact numDigits_eq hna1 hna2
    have hev : toDateSafe (.vnum (mkIntDec v)) =
        dateClip (if (mkIntDec v).strLen = 10
          then (mkIntDec v).val * 1000 else (mkIntDec v).val) := rfl
    rw [hev, if_neg (by rw [hstr]; norm_num), val_mkIntDec] at he
    have hm := dateClip_eq_some he
    rw [ratTrunc_intCast] at hm
    have hf : (T : ℚ) / 1000000 = ((v : ℤ) : ℚ) := by
      rw [hT]
      push_cast
      ring
    rw [hf, Int.floor_intCast]
    omega
  | date T m0 h =>
    have hev : toDateSafe (.vdate (some m0)) = some m0 := rfl
    rw [hev] at he
    exact Or.inl (by rw [← Option.some_injective _ he]; exact h)
  | iso T s h =>
    have hev : toDateSafe (.vstr s) = dateParse s := rfl
    rw [hev, h] at he
    exact Or.inl (Option.some_injective _ he).symm

/-- **C5, confirmed.**  Any two supported encodings of the same instant that
the normalizer accepts produce epoch-millisecond values at most 1 ms apart,
and the `{seconds, nanoseconds}` branch computes exactly
`seconds * 1000 + round(nanoseconds / 10⁶)` (with `round x = ⌊x + 1/2⌋`). -/
theorem c5_instant_encodings_agree :
    (∀ (T : Int) (v1 v2 : JsVal) (m1 m2 : Int),
        Represents v1 T → Represents v2 T →
        toDateSafe v1 = some m1 → toDateSafe v2 = some m2 →
        (m1 - m2).natAbs ≤ 1) ∧
    (∀ sv nv m : Int,
        toDateSafe (.vobj [("seconds", .vnum (mkIntDec sv)),
            ("nanoseconds", .vnum (mkIntDec nv))]) = some m →
        m = sv * 1000 + ⌊(nv : ℚ) / 1000000 + 1 / 2⌋) := by
  constructor
  · intro T v1 v2 m1 m2 h1 h2 e1 e2
    have d1 := toDateSafe_close h1 e1
    have d2 := toDateSafe_close h2 e2
    rcases d1 with d1 | d1 <;> rcases d2 with d2 | d2 <;> rw [d1, d2] <;> omega
  · intro sv nv m he
    have hev : toDateSafe
        (.vobj [("seconds", .vnum (mkIntDec sv)), ("nanoseconds", .vnum (mkIntDec nv))]) =
        dateClip ((mkIntDec sv).val * 1000 + (jsRound ((mkIntDec nv).val / 1000000) : ℚ)) :=
      rfl
    rw [hev, val_mkIntDec, val_mkIntDec] at he
    have hq : (sv : ℚ) * 1000 + ((jsRound ((nv : ℚ) / 1000000) : ℤ) : ℚ) =
        ((sv * 1000 + jsRound ((nv : ℚ) / 1000000) : ℤ) : ℚ) := by
      push_cast
      ring
    rw [hq] at he
    have hm := dateClip_eq_some he
    rw [ratTrunc_intCast] at hm
    rw [hm]
    unfold jsRound
    ring

/-- **C5, witness.**  The 10-digit epoch-seconds number `1700000000` and the
split `{seconds: 1700000000, nanoseconds: 0}` both encode the instant
`T = 1.7e18` ns and both normalize to `1700000000000` ms. -/
theorem c5_witness :
    ((1700000000000 : Int) - 1700000000000).natAbs ≤ 1 ∧
    (1700000000000 : Int) = 1700000000 * 1000 + ⌊(((0 : Int) : ℚ)) / 1000000 + 1 / 2⌋ := by
  have hev1 : toDateSafe (.vnum (mkIntDec 1700000000)) = some 1700000000000 := by
    have hstr : (mkIntDec 1700000000).strLen = 10 := by decide
    have hev : toDateSafe (.vnum (mkIntDec 1700000000)) =
        dateClip (if (mkIntDec 1700000000).strLen = 10
          then (mkIntDec 1700000000).val * 1000 else (mkIntDec 1700000000).val) := rfl
    rw [hev, if_pos hstr, val_mkIntDec]
    have hq : ((1700000000 : ℤ) : ℚ) * 1000 = ((1700000000000 : ℤ) : ℚ) := by
      push_cast
      ring
    rw [hq, dateClip_intCast (by norm_num)]
  have hev2 : toDateSafe (.vobj [("seconds", .vnum (mkIntDec 1700000000)),
      ("nanoseconds", .vnum (mkIntDec 0))]) = some 1700000000000 := by
    have hev : toDateSafe (.vobj [("seconds", .vnum (mkIntDec 1700000000)),
        ("nanoseconds", .vnum (mkIntDec 0))]) =
        dateClip ((mkIntDec 1700000000).val * 1000 +
          (jsRound ((mkIntDec 0).val / 1000000) : ℚ)) := rfl
    rw [hev, val_mkIntDec, val_mkIntDec]
    have hj : jsRound (((0 : ℤ) : ℚ) / 1000000) = 0 := by
      unfold jsRound
      norm_num
    rw [hj]
    have hq : ((1700000000 : ℤ) : ℚ) * 1000 + ((0 : ℤ) : ℚ) = ((1700000000000 : ℤ) : ℚ) := by
      push_cast
      ring
    rw [hq, dateClip_intCast (by norm_num)]
  refine ⟨?_, ?_⟩
  · exact c5_instant_encodings_agree.1 1700000000000000000
      (.vnum (mkIntDec 1700000000))
      (.vobj [("seconds", .vnum (mkIntDec 1700000000)), ("nanoseconds", .vnum (mkIntDec 0))])
      1700000000000 1700000000000
      (Represents.num10 1700000000000000000 1700000000 (by norm_num) (by norm_num)
        (by norm_num))
      (Represents.secNs 1700000000000000000 1700000000 0 (by norm_num) (by norm_num)
        (by norm_num))
      hev1 hev2
  · exact c5_instant_encodings_agree.2 1700000000 0 1700000000000 hev2
